import Mathlib

/-!
Verification of the envyr source fetcher and project analyzer.

Rust strings are embedded as `List Char`; `&str` operations (`split`,
`strip_suffix`, `trim`, `contains`, ...) are given executable Lean
counterparts below.  Fallible Rust functions returning `Result` are embedded
as `Except`; subprocess-effecting code (git invocations) is embedded as a
function of an oracle world describing the outcomes of the external
commands, paired with the trace of commands issued.
-/

namespace Envyr

/-- Embedding of Rust `str::split(c)` (always yields at least one piece;
splitting the empty string yields `[[]]`, like Rust's `[""]`). -/
def splitOnChar (c : Char) : List Char → List (List Char)
  | [] => [[]]
  | x :: xs =>
    if x = c then [] :: splitOnChar c xs
    else
      match splitOnChar c xs with
      | [] => [[x]]
      | t :: ts => (x :: t) :: ts

/-- Last element of `a :: rest`, embedding Rust `Iterator::last` on a
split whose first piece is `a`. -/
def lastD : List (List Char) → List Char → List Char
  | [], d => d
  | a :: rest, _ => lastD rest a

/-- Embedding of Rust `DoubleEndedIterator::nth_back(n)`. -/
def nthBack (l : List (List Char)) (n : Nat) : Option (List Char) :=
  l.reverse[n]?

/-- Embedding of Rust `str::strip_prefix`. -/
def stripPrefixL : List Char → List Char → Option (List Char)
  | [], s => some s
  | _ :: _, [] => none
  | p :: ps, x :: xs => if x = p then stripPrefixL ps xs else none

/-- Embedding of Rust `str::starts_with`. -/
def startsWithL (p s : List Char) : Bool :=
  (stripPrefixL p s).isSome

/-- Embedding of Rust `str::strip_suffix`. -/
def stripSuffixL (suf s : List Char) : Option (List Char) :=
  (stripPrefixL suf.reverse s.reverse).map List.reverse

/-- Holds (as `true`) iff `suf` is a suffix of `s` (Rust `str::ends_with`). -/
def isSuffixB (suf s : List Char) : Bool :=
  (stripSuffixL suf s).isSome

/-- Embedding of Rust `str::trim`. -/
def trimL (s : List Char) : List Char :=
  ((s.dropWhile Char.isWhitespace).reverse.dropWhile Char.isWhitespace).reverse

/-- Embedding of Rust `str::contains(pat)` (substring search). -/
def containsL (pat : List Char) : List Char → Bool
  | [] => startsWithL pat []
  | x :: t => startsWithL pat (x :: t) || containsL pat t

/-- The `".git"` suffix stripped by the URL parsers. -/
def dotGitL : List Char := ['.', 'g', 'i', 't']

/-- The string `"https://"` as a character list. -/
def httpsL : List Char := ['h', 't', 't', 'p', 's', ':', '/', '/']

/-- The string `"http://"` as a character list. -/
def httpL : List Char := ['h', 't', 't', 'p', ':', '/', '/']

/-- Embedding of `url.strip_suffix(".git").unwrap_or(url)`, the first line of each of the
three cache-key parsers in `adapters/git.rs`. -/
def stripDotGit (url : List Char) : List Char :=
  (stripSuffixL dotGitL url).getD url

/-- Parse errors raised by the cache-key parsers (each Rust `anyhow!`
message carries the offending URL). -/
inductive ParseErr where
  | provider (url : List Char)
  | org (url : List Char)
  | project (url : List Char)
deriving Repr, DecidableEq

/-- Embedding of `url.strip_prefix("https://").or_else(|| url.strip_prefix("http://"))`
from `get_git_provider`. -/
def stripHttpPre (url : List Char) : Option (List Char) :=
  match stripPrefixL httpsL url with
  | some r => some r
  | none => stripPrefixL httpL url

/-- Embedding of `get_git_provider` (adapters/git.rs): hostname of an
`http(s)://` URL, else the part before `:`, stripped of a `user@` prefix. -/
def get_git_provider (url : List Char) : Except ParseErr (List Char) :=
  let url := stripDotGit url
  match stripHttpPre url with
  | some rest =>
    match splitOnChar '/' rest with
    | [] => .error (.provider url)
    | h :: _ => .ok h
  | none =>
    match splitOnChar ':' url with
    | [] => .error (.provider url)
    | p :: _ =>
      match splitOnChar '@' p with
      | [] => .ok p
      | a :: r => .ok (lastD r a)

/-- Embedding of `get_org_name` (adapters/git.rs): second-to-last `/`
segment, then the part after the last `:`. -/
def get_org_name (url : List Char) : Except ParseErr (List Char) :=
  let url := stripDotGit url
  match nthBack (splitOnChar '/' url) 1 with
  | none => .error (.org url)
  | some name =>
    match splitOnChar ':' name with
    | [] => .error (.org url)
    | a :: r => .ok (lastD r a)

/-- Embedding of `get_project_name` (adapters/git.rs): last `/` segment. -/
def get_project_name (url : List Char) : Except ParseErr (List Char) :=
  let url := stripDotGit url
  match splitOnChar '/' url with
  | [] => .error (.project url)
  | a :: r => .ok (lastD r a)

/-- Embedding of `get_storage_path` (adapters/git.rs): the cache key
`provider/org/project` as a triple. -/
def get_storage_path (url : List Char) :
    Except ParseErr (List Char × List Char × List Char) :=
  match get_git_provider url with
  | .error e => .error e
  | .ok p =>
    match get_org_name url with
    | .error e => .error e
    | .ok o =>
      match get_project_name url with
      | .error e => .error e
      | .ok n => .ok (p, o, n)

/-! Basic lemmas about the string-operation embeddings. -/

theorem splitOnChar_ne_nil (c : Char) (l : List Char) : splitOnChar c l ≠ [] := by
  cases l with
  | nil => simp [splitOnChar]
  | cons x xs =>
    simp only [splitOnChar]
    split
    · simp
    · split <;> simp

theorem splitOnChar_append_cons (c : Char) (xs ys : List Char) (h : c ∉ xs) :
    splitOnChar c (xs ++ c :: ys) = xs :: splitOnChar c ys := by
  induction xs with
  | nil => simp [splitOnChar]
  | cons x t ih =>
    have hx : ¬ (x = c) := by rintro rfl; exact h (List.mem_cons_self _ _)
    have ht : c ∉ t := fun hm => h (List.mem_cons_of_mem _ hm)
    simp [splitOnChar, hx, ih ht]

theorem splitOnChar_of_not_mem (c : Char) (xs : List Char) (h : c ∉ xs) :
    splitOnChar c xs = [xs] := by
  induction xs with
  | nil => rfl
  | cons x t ih =>
    have hx : ¬ (x = c) := by rintro rfl; exact h (List.mem_cons_self _ _)
    have ht : c ∉ t := fun hm => h (List.mem_cons_of_mem _ hm)
    simp [splitOnChar, hx, ih ht]

theorem stripPrefixL_eq_some_iff {p s r : List Char} :
    stripPrefixL p s = some r ↔ s = p ++ r := by
  induction p generalizing s with
  | nil => simp [stripPrefixL, eq_comm]
  | cons q qs ih =>
    cases s with
    | nil => simp [stripPrefixL]
    | cons x xs =>
      by_cases hx : x = q
      · subst hx
        simp [stripPrefixL, ih]
      · simp [stripPrefixL, hx]

theorem stripPrefixL_cons_of_ne {q x : Char} {qs xs : List Char} (hne : ¬ (x = q)) :
    stripPrefixL (q :: qs) (x :: xs) = none := by
  simp [stripPrefixL, hne]

theorem stripSuffixL_eq_some_iff {suf s a : List Char} :
    stripSuffixL suf s = some a ↔ s = a ++ suf := by
  simp only [stripSuffixL, Option.map_eq_some']
  constructor
  · rintro ⟨b, hb, rfl⟩
    have hb' := stripPrefixL_eq_some_iff.mp hb
    have hs : s = (suf.reverse ++ b).reverse := by rw [← hb', List.reverse_reverse]
    simp [hs]
  · rintro rfl
    refine ⟨a.reverse, ?_, by simp⟩
    exact stripPrefixL_eq_some_iff.mpr (by simp)

theorem stripDotGit_append (a : List Char) : stripDotGit (a ++ dotGitL) = a := by
  have h : stripSuffixL dotGitL (a ++ dotGitL) = some a :=
    stripSuffixL_eq_some_iff.mpr rfl
  simp [stripDotGit, h]

theorem stripDotGit_of_not_suffix {s : List Char} (h : isSuffixB dotGitL s = false) :
    stripDotGit s = s := by
  cases hs : stripSuffixL dotGitL s with
  | none => simp [stripDotGit, hs]
  | some a => rw [isSuffixB, hs] at h; simp at h

theorem not_dotGit_suffix_append (xs p : List Char)
    (hs : isSuffixB dotGitL p = false) :
    isSuffixB dotGitL (xs ++ '/' :: p) = false := by
  rw [isSuffixB]
  cases hq : stripSuffixL dotGitL (xs ++ '/' :: p) with
  | none => rfl
  | some a =>
    exfalso
    have he : xs ++ '/' :: p = a ++ dotGitL := stripSuffixL_eq_some_iff.mp hq
    have her : p.reverse ++ '/' :: xs.reverse = 't' :: 'i' :: 'g' :: '.' :: a.reverse := by
      have h2 := congrArg List.reverse he
      simpa [dotGitL, List.reverse_append] using h2
    rcases hpr : p.reverse with _ | ⟨c1, _ | ⟨c2, _ | ⟨c3, _ | ⟨c4, rest⟩⟩⟩⟩ <;>
      rw [hpr] at her
    · simp only [List.nil_append, List.cons.injEq] at her
      exact absurd her.1 (by decide)
    · simp only [List.cons_append, List.nil_append, List.cons.injEq] at her
      exact absurd her.2.1 (by decide)
    · simp only [List.cons_append, List.nil_append, List.cons.injEq] at her
      exact absurd her.2.2.1 (by decide)
    · simp only [List.cons_append, List.nil_append, List.cons.injEq] at her
      exact absurd her.2.2.2.1 (by decide)
    · simp only [List.cons_append, List.cons.injEq] at her
      obtain ⟨h1, h2, h3, h4, -⟩ := her
      subst h1 h2 h3 h4
      have hp2 : p = rest.reverse ++ dotGitL := by
        have h5 := congrArg List.reverse hpr
        simpa [dotGitL] using h5
      have h6 : stripSuffixL dotGitL p = some rest.reverse :=
        stripSuffixL_eq_some_iff.mpr hp2
      rw [isSuffixB, h6] at hs
      simp at hs

/-- SSH-style locator `git@host:org/project`. -/
def sshUrl (host org project : List Char) : List Char :=
  'g' :: 'i' :: 't' :: '@' :: (host ++ ':' :: (org ++ '/' :: project))

/-- HTTPS-style locator `https://host/org/project`. -/
def httpsUrl (host org project : List Char) : List Char :=
  httpsL ++ (host ++ '/' :: (org ++ '/' :: project))

theorem nthBack_pair (a b : List Char) : nthBack [a, b] 1 = some a := by
  simp [nthBack]

theorem nthBack_five (a b c d e : List Char) :
    nthBack [a, b, c, d, e] 1 = some d := by
  simp [nthBack]

theorem sshUrl_eq_append (host org project : List Char) :
    sshUrl host org project
      = (['g', 'i', 't', '@'] ++ (host ++ ':' :: org)) ++ '/' :: project := by
  simp [sshUrl]

theorem httpsUrl_eq_append (host org project : List Char) :
    httpsUrl host org project
      = (httpsL ++ (host ++ '/' :: org)) ++ '/' :: project := by
  simp [httpsUrl, httpsL]

theorem stripDotGit_sshUrl (host org project : List Char)
    (hpg : isSuffixB dotGitL project = false) :
    stripDotGit (sshUrl host org project) = sshUrl host org project := by
  apply stripDotGit_of_not_suffix
  rw [sshUrl_eq_append]
  exact not_dotGit_suffix_append _ _ hpg

theorem stripDotGit_httpsUrl (host org project : List Char)
    (hpg : isSuffixB dotGitL project = false) :
    stripDotGit (httpsUrl host org project) = httpsUrl host org project := by
  apply stripDotGit_of_not_suffix
  rw [httpsUrl_eq_append]
  exact not_dotGit_suffix_append _ _ hpg

theorem stripHttpPre_sshUrl (host org project : List Char) :
    stripHttpPre (sshUrl host org project) = none := by
  have h1 : stripPrefixL httpsL (sshUrl host org project) = none := by
    rw [httpsL, sshUrl]; exact stripPrefixL_cons_of_ne (by decide)
  have h2 : stripPrefixL httpL (sshUrl host org project) = none := by
    rw [httpL, sshUrl]; exact stripPrefixL_cons_of_ne (by decide)
  simp [stripHttpPre, h1, h2]

theorem stripHttpPre_httpsUrl (host org project : List Char) :
    stripHttpPre (httpsUrl host org project)
      = some (host ++ '/' :: (org ++ '/' :: project)) := by
  have h1 : stripPrefixL httpsL (httpsUrl host org project)
      = some (host ++ '/' :: (org ++ '/' :: project)) :=
    stripPrefixL_eq_some_iff.mpr rfl
  simp [stripHttpPre, h1]

/-- Evaluation of `get_git_provider` on any locator whose `.git`-stripped form is an
SSH-style URL yields the host. -/
theorem provider_of_ssh (host org project u : List Char)
    (hstrip : stripDotGit u = sshUrl host org project)
    (hc : ':' ∉ host) (ha : '@' ∉ host) :
    get_git_provider u = .ok host := by
  have hm : ':' ∉ ['g', 'i', 't', '@'] ++ host := by
    intro hmem
    rcases List.mem_append.mp hmem with h | h
    · exact absurd h (by decide)
    · exact hc h
  have e3 : splitOnChar ':' (sshUrl host org project)
      = (['g', 'i', 't', '@'] ++ host) :: splitOnChar ':' (org ++ '/' :: project) := by
    have hshape : sshUrl host org project
        = (['g', 'i', 't', '@'] ++ host) ++ ':' :: (org ++ '/' :: project) := by
      simp [sshUrl]
    rw [hshape, splitOnChar_append_cons _ _ _ hm]
  have e4 : splitOnChar '@' (['g', 'i', 't', '@'] ++ host)
      = ['g', 'i', 't'] :: [host] := by
    have hshape : ['g', 'i', 't', '@'] ++ host = ['g', 'i', 't'] ++ '@' :: host := by
      simp
    rw [hshape, splitOnChar_append_cons _ _ _ (by decide),
      splitOnChar_of_not_mem _ _ ha]
  simp only [get_git_provider, hstrip, stripHttpPre_sshUrl, e3, e4]
  rfl

/-- Evaluation of `get_git_provider` on any locator whose `.git`-stripped form is an
HTTPS-style URL yields the host. -/
theorem provider_of_https (host org project u : List Char)
    (hstrip : stripDotGit u = httpsUrl host org project)
    (hh : '/' ∉ host) :
    get_git_provider u = .ok host := by
  have e3 : splitOnChar '/' (host ++ '/' :: (org ++ '/' :: project))
      = host :: splitOnChar '/' (org ++ '/' :: project) :=
    splitOnChar_append_cons _ _ _ hh
  simp only [get_git_provider, hstrip, stripHttpPre_httpsUrl, e3]

/-- Evaluation of `get_org_name` on any locator whose `.git`-stripped form is an
SSH-style URL yields the org. -/
theorem org_of_ssh (host org project u : List Char)
    (hstrip : stripDotGit u = sshUrl host org project)
    (hh : '/' ∉ host) (ho : '/' ∉ org) (hp : '/' ∉ project)
    (hc : ':' ∉ host) (hco : ':' ∉ org) :
    get_org_name u = .ok org := by
  have hmA : '/' ∉ ['g', 'i', 't', '@'] ++ (host ++ ':' :: org) := by
    intro hmem
    rcases List.mem_append.mp hmem with h | h
    · exact absurd h (by decide)
    · rcases List.mem_append.mp h with h | h
      · exact hh h
      · rcases List.mem_cons.mp h with h | h
        · exact absurd h (by decide)
        · exact ho h
  have e1 : splitOnChar '/' (sshUrl host org project)
      = [['g', 'i', 't', '@'] ++ (host ++ ':' :: org), project] := by
    rw [sshUrl_eq_append, splitOnChar_append_cons _ _ _ hmA,
      splitOnChar_of_not_mem _ _ hp]
  have hmB : ':' ∉ ['g', 'i', 't', '@'] ++ host := by
    intro hmem
    rcases List.mem_append.mp hmem with h | h
    · exact absurd h (by decide)
    · exact hc h
  have e2 : splitOnChar ':' (['g', 'i', 't', '@'] ++ (host ++ ':' :: org))
      = (['g', 'i', 't', '@'] ++ host) :: [org] := by
    have hshape : ['g', 'i', 't', '@'] ++ (host ++ ':' :: org)
        = (['g', 'i', 't', '@'] ++ host) ++ ':' :: org := by simp
    rw [hshape, splitOnChar_append_cons _ _ _ hmB,
      splitOnChar_of_not_mem _ _ hco]
  simp only [get_org_name, hstrip, e1, nthBack_pair, e2]
  rfl

/-- Evaluation of `get_org_name` on any locator whose `.git`-stripped form is an
HTTPS-style URL yields the org. -/
theorem org_of_https (host org project u : List Char)
    (hstrip : stripDotGit u = httpsUrl host org project)
    (hh : '/' ∉ host) (ho : '/' ∉ org) (hp : '/' ∉ project)
    (hco : ':' ∉ org) :
    get_org_name u = .ok org := by
  have e1 : splitOnChar '/' (httpsUrl host org project)
      = [['h', 't', 't', 'p', 's', ':'], [], host, org, project] := by
    have hshape : httpsUrl host org project
        = ['h', 't', 't', 'p', 's', ':'] ++ '/'
            :: ([] ++ '/' :: (host ++ '/' :: (org ++ '/' :: project))) := by
      simp [httpsUrl, httpsL]
    rw [hshape, splitOnChar_append_cons _ _ _ (by decide),
      splitOnChar_append_cons _ _ _ (by simp),
      splitOnChar_append_cons _ _ _ hh,
      splitOnChar_append_cons _ _ _ ho,
      splitOnChar_of_not_mem _ _ hp]
  have e2 : splitOnChar ':' org = [org] := splitOnChar_of_not_mem _ _ hco
  simp only [get_org_name, hstrip, e1, nthBack_five, e2]
  rfl

/-- Evaluation of `get_project_name` on any locator whose `.git`-stripped form is an
SSH-style URL yields the project. -/
theorem project_of_ssh (host org project u : List Char)
    (hstrip : stripDotGit u = sshUrl host org project)
    (hh : '/' ∉ host) (ho : '/' ∉ org) (hp : '/' ∉ project) :
    get_project_name u = .ok project := by
  have hmA : '/' ∉ ['g', 'i', 't', '@'] ++ (host ++ ':' :: org) := by
    intro hmem
    rcases List.mem_append.mp hmem with h | h
    · exact absurd h (by decide)
    · rcases List.mem_append.mp h with h | h
      · exact hh h
      · rcases List.mem_cons.mp h with h | h
        · exact absurd h (by decide)
        · exact ho h
  have e1 : splitOnChar '/' (sshUrl host org project)
      = [['g', 'i', 't', '@'] ++ (host ++ ':' :: org), project] := by
    rw [sshUrl_eq_append, splitOnChar_append_cons _ _ _ hmA,
      splitOnChar_of_not_mem _ _ hp]
  simp only [get_project_name, hstrip, e1]
  rfl

/-- Evaluation of `get_project_name` on any locator whose `.git`-stripped form is an
HTTPS-style URL yields the project. -/
theorem project_of_https (host org project u : List Char)
    (hstrip : stripDotGit u = httpsUrl host org project)
    (hh : '/' ∉ host) (ho : '/' ∉ org) (hp : '/' ∉ project) :
    get_project_name u = .ok project := by
  have e1 : splitOnChar '/' (httpsUrl host org project)
      = [['h', 't', 't', 'p', 's', ':'], [], host, org, project] := by
    have hshape : httpsUrl host org project
        = ['h', 't', 't', 'p', 's', ':'] ++ '/'
            :: ([] ++ '/' :: (host ++ '/' :: (org ++ '/' :: project))) := by
      simp [httpsUrl, httpsL]
    rw [hshape, splitOnChar_append_cons _ _ _ (by decide),
      splitOnChar_append_cons _ _ _ (by simp),
      splitOnChar_append_cons _ _ _ hh,
      splitOnChar_append_cons _ _ _ ho,
      splitOnChar_of_not_mem _ _ hp]
  simp only [get_project_name, hstrip, e1]
  rfl

/-! ## The fetch state machine (`GitFetcher::fetch`, adapters/git.rs)

Subprocess outcomes are supplied by an oracle `GitWorld`; every embedded
operation returns its `Result` together with the list of git subcommands it
invoked, in order. -/

/-- A git subprocess invocation, as issued by the fetcher. -/
inductive GitCmd where
  | symbolicRef
  | checkout (branch : List Char)
  | pull
  | fetchTags
  | clone
deriving Repr, DecidableEq

/-- Oracle for the outcomes of the external `git` subprocesses and of the
filesystem existence check in `fetch`. -/
structure GitWorld where
  pathExists : Bool
  /-- Holds `some out` iff `git symbolic-ref refs/remotes/origin/HEAD --short`
  ran and succeeded, with captured stdout `out`. -/
  symref : Option (List Char)
  /-- Whether `git checkout <branch>` exits successfully. -/
  checkoutOk : List Char → Bool
  pullOk : Bool
  fetchTagsOk : Bool
  cloneOk : Bool

/-- Errors surfaced by the fetcher (each Rust `anyhow!` message carries
captured stderr, elided here). -/
inductive FetchErr where
  | parse (e : ParseErr)
  | swapFailed
  | pullFailed
  | tagsFailed
  | checkoutFailed
  | cloneFailed
deriving Repr, DecidableEq

/-- The `"latest"` version sentinel. -/
def latestL : List Char := ['l', 'a', 't', 'e', 's', 't']

/-- The string `"main"` as a character list. -/
def mainL : List Char := ['m', 'a', 'i', 'n']

/-- The string `"master"` as a character list. -/
def masterL : List Char := ['m', 'a', 's', 't', 'e', 'r']

/-- The string `"origin/"` as a character list. -/
def originL : List Char := ['o', 'r', 'i', 'g', 'i', 'n', '/']

/-- The branch name derived from the stdout of `symbolic-ref`:
trimmed, with an `origin/` lead stripped (`swap_back_to_latest`, lines
132-133). -/
def branchOf (out : List Char) : List Char :=
  let branch := trimL out
  (stripPrefixL originL branch).getD branch

/-- The `main`/`master` fallback tail of `swap_back_to_latest` (lines
144-164), with `pre` the commands already issued. -/
def swapFallback (w : GitWorld) (pre : List GitCmd) :
    Except FetchErr Unit × List GitCmd :=
  if w.checkoutOk mainL then (.ok (), pre ++ [.checkout mainL])
  else if w.checkoutOk masterL then
    (.ok (), pre ++ [.checkout mainL, .checkout masterL])
  else (.error .swapFailed, pre ++ [.checkout mainL, .checkout masterL])

/-- Embedding of `swap_back_to_latest` (adapters/git.rs lines 122-165). -/
def swapBackToLatest (w : GitWorld) : Except FetchErr Unit × List GitCmd :=
  match w.symref with
  | some out =>
    if w.checkoutOk (branchOf out) then
      (.ok (), [.symbolicRef, .checkout (branchOf out)])
    else swapFallback w [.symbolicRef, .checkout (branchOf out)]
  | none => swapFallback w [.symbolicRef]

/-- Embedding of `checkout_version` (adapters/git.rs lines 72-89). -/
def checkout_version (w : GitWorld) (version : List Char) :
    Except FetchErr Unit × List GitCmd :=
  if version ≠ latestL then
    if w.checkoutOk version then (.ok (), [.checkout version])
    else (.error .checkoutFailed, [.checkout version])
  else (.ok (), [])

/-- Embedding of `GitFetcher::fetch` (adapters/git.rs lines 22-39); the
returned value on success is the cache key standing for the joined storage
path. -/
def fetch (w : GitWorld) (url version : List Char) (refresh : Bool) :
    Except FetchErr (List Char × List Char × List Char) × List GitCmd :=
  match get_storage_path url with
  | .error e => (.error (.parse e), [])
  | .ok key =>
    if w.pathExists then
      match swapBackToLatest w with
      | (.error e, t) => (.error e, t)
      | (.ok _, t) =>
        if refresh then
          if w.pullOk then
            if w.fetchTagsOk then
              let cv := checkout_version w version
              (cv.1.map (fun _ => key), t ++ [.pull, .fetchTags] ++ cv.2)
            else (.error .tagsFailed, t ++ [.pull, .fetchTags])
          else (.error .pullFailed, t ++ [.pull])
        else
          let cv := checkout_version w version
          (cv.1.map (fun _ => key), t ++ cv.2)
    else
      if w.cloneOk then
        if w.fetchTagsOk then
          let cv := checkout_version w version
          (cv.1.map (fun _ => key), .clone :: .fetchTags :: cv.2)
        else (.error .tagsFailed, [.clone, .fetchTags])
      else (.error .cloneFailed, [.clone])

theorem nthBack_single (a : List Char) : nthBack [a] 1 = none := by
  simp [nthBack]

theorem mem_stripDotGit {x : Char} {s : List Char} (h : x ∈ stripDotGit s) :
    x ∈ s := by
  cases hs : stripSuffixL dotGitL s with
  | none => rwa [stripDotGit, hs] at h
  | some a =>
    rw [stripDotGit, hs] at h
    have hsa : s = a ++ dotGitL := stripSuffixL_eq_some_iff.mp hs
    rw [hsa]
    exact List.mem_append_left _ h

theorem get_git_provider_isOk (u : List Char) :
    ∃ v, get_git_provider u = .ok v := by
  cases hpre : stripHttpPre (stripDotGit u) with
  | some rest =>
    obtain ⟨a, r, hsplit⟩ :=
      List.exists_cons_of_ne_nil (splitOnChar_ne_nil '/' rest)
    exact ⟨a, by simp only [get_git_provider, hpre, hsplit]⟩
  | none =>
    obtain ⟨a, r, h1⟩ :=
      List.exists_cons_of_ne_nil (splitOnChar_ne_nil ':' (stripDotGit u))
    obtain ⟨b, s, h2⟩ := List.exists_cons_of_ne_nil (splitOnChar_ne_nil '@' a)
    exact ⟨lastD s b, by simp only [get_git_provider, hpre, h1, h2]⟩

/-- Whether the symbolic-ref branch detection step succeeded outright. -/
def symrefBranchOk (w : GitWorld) : Bool :=
  match w.symref with
  | some out => w.checkoutOk (branchOf out)
  | none => false

theorem swap_trace_head (w : GitWorld) :
    (swapBackToLatest w).2.head? = some GitCmd.symbolicRef := by
  cases hsr : w.symref <;>
    simp only [swapBackToLatest, swapFallback] <;>
    split <;> (try split) <;> (try split) <;> (try split) <;> simp

theorem swap_trace_mem (w : GitWorld) :
    GitCmd.pull ∉ (swapBackToLatest w).2 ∧
      GitCmd.fetchTags ∉ (swapBackToLatest w).2 ∧
      GitCmd.clone ∉ (swapBackToLatest w).2 := by
  cases hsr : w.symref <;>
    simp only [swapBackToLatest, swapFallback] <;>
    split <;> (try split) <;> (try split) <;> (try split) <;> simp

theorem swap_error_iff (w : GitWorld) :
    (swapBackToLatest w).1 = .error .swapFailed ↔
      symrefBranchOk w = false ∧ w.checkoutOk mainL = false ∧
        w.checkoutOk masterL = false := by
  cases hsr : w.symref <;>
    simp only [swapBackToLatest, symrefBranchOk, hsr, swapFallback] <;>
    split <;> (try split) <;> (try split) <;> (try split) <;> simp_all

theorem swap_result_ok_or_swapFailed (w : GitWorld) :
    (swapBackToLatest w).1 = .ok () ∨
      (swapBackToLatest w).1 = .error .swapFailed := by
  cases hsr : w.symref <;>
    simp only [swapBackToLatest, swapFallback] <;>
    split <;> (try split) <;> (try split) <;> (try split) <;> simp

theorem swap_symref_spec (w : GitWorld) (out : List Char) (h1 : w.symref = some out)
    (h2 : w.checkoutOk (branchOf out) = true) :
    swapBackToLatest w = (.ok (), [.symbolicRef, .checkout (branchOf out)]) := by
  simp [swapBackToLatest, h1, h2]

theorem swap_main_spec (w : GitWorld) (h1 : symrefBranchOk w = false)
    (h2 : w.checkoutOk mainL = true) :
    (swapBackToLatest w).1 = .ok () ∧
      (swapBackToLatest w).2.getLast? = some (.checkout mainL) := by
  cases hsr : w.symref with
  | none => simp [swapBackToLatest, hsr, swapFallback, h2]
  | some out =>
    have hco : w.checkoutOk (branchOf out) = false := by
      simpa [symrefBranchOk, hsr] using h1
    simp [swapBackToLatest, hsr, hco, swapFallback, h2]

theorem swap_master_spec (w : GitWorld) (h1 : symrefBranchOk w = false)
    (h2 : w.checkoutOk mainL = false) (h3 : w.checkoutOk masterL = true) :
    (swapBackToLatest w).1 = .ok () ∧
      (swapBackToLatest w).2.getLast? = some (.checkout masterL) := by
  cases hsr : w.symref with
  | none => simp [swapBackToLatest, hsr, swapFallback, h2, h3]
  | some out =>
    have hco : w.checkoutOk (branchOf out) = false := by
      simpa [symrefBranchOk, hsr] using h1
    simp [swapBackToLatest, hsr, hco, swapFallback, h2, h3]

theorem checkout_version_of_ne (w : GitWorld) (version : List Char)
    (h : version ≠ latestL) :
    (checkout_version w version).2 = [.checkout version] := by
  simp only [checkout_version, if_pos h]
  split <;> rfl

theorem checkout_version_latest (w : GitWorld) :
    checkout_version w latestL = (.ok (), []) := by
  simp [checkout_version]

/-- Complete case analysis of `fetch` on a pre-existing cache entry. -/
theorem fetch_cached_cases (w : GitWorld) (url version : List Char) (refresh : Bool)
    (key : List Char × List Char × List Char)
    (hp : w.pathExists = true) (hk : get_storage_path url = .ok key) :
    (∀ e, (swapBackToLatest w).1 = .error e →
        fetch w url version refresh = (.error e, (swapBackToLatest w).2)) ∧
    ((swapBackToLatest w).1 = .ok () → refresh = false →
        fetch w url version refresh
          = ((checkout_version w version).1.map (fun _ => key),
             (swapBackToLatest w).2 ++ (checkout_version w version).2)) ∧
    ((swapBackToLatest w).1 = .ok () → refresh = true → w.pullOk = false →
        fetch w url version refresh
          = (.error .pullFailed, (swapBackToLatest w).2 ++ [.pull])) ∧
    ((swapBackToLatest w).1 = .ok () → refresh = true → w.pullOk = true →
        w.fetchTagsOk = false →
        fetch w url version refresh
          = (.error .tagsFailed, (swapBackToLatest w).2 ++ [.pull, .fetchTags])) ∧
    ((swapBackToLatest w).1 = .ok () → refresh = true → w.pullOk = true →
        w.fetchTagsOk = true →
        fetch w url version refresh
          = ((checkout_version w version).1.map (fun _ => key),
             (swapBackToLatest w).2 ++ [.pull, .fetchTags]
               ++ (checkout_version w version).2)) := by
  rcases hsw : swapBackToLatest w with ⟨rs, ts⟩
  refine ⟨?_, ?_, ?_, ?_, ?_⟩
  · intro e he
    replace he : rs = Except.error e := he
    subst he
    simp [fetch, hk, hp, hsw]
  · intro hok hr
    replace hok : rs = Except.ok () := hok
    subst hok hr
    simp [fetch, hk, hp, hsw]
  · intro hok hr hpull
    replace hok : rs = Except.ok () := hok
    subst hok hr
    simp [fetch, hk, hp, hsw, hpull]
  · intro hok hr hpull htags
    replace hok : rs = Except.ok () := hok
    subst hok hr
    simp [fetch, hk, hp, hsw, hpull, htags]
  · intro hok hr hpull htags
    replace hok : rs = Except.ok () := hok
    subst hok hr
    simp [fetch, hk, hp, hsw, hpull, htags]

theorem checkout_version_trace (w : GitWorld) (version : List Char) :
    (checkout_version w version).2
      = if version = latestL then [] else [.checkout version] := by
  by_cases hv : version = latestL
  · subst hv; simp [checkout_version]
  · simp only [checkout_version, ne_eq, hv, not_false_eq_true, if_true, if_neg hv]
    split <;> rfl

/-! ## Claim theorems for the fetcher -/

/-- C1: cache-key parsing is invariant under URL style and the `.git`
suffix: for every well-formed host, org and project (no separator
characters inside the components, project not itself ending in `.git`), the SSH-style locators with and without `.git` and the
HTTPS-style locators with and without `.git` all parse to the identical
`(provider, org, project)` triple `(host, org, project)`. -/
theorem claim_C1 (host org project : List Char)
    (hh : '/' ∉ host) (hc : ':' ∉ host) (ha : '@' ∉ host)
    (ho : '/' ∉ org) (hco : ':' ∉ org)
    (hp : '/' ∉ project) (hpg : isSuffixB dotGitL project = false) :
    get_storage_path (sshUrl host org project ++ dotGitL)
        = .ok (host, org, project) ∧
    get_storage_path (sshUrl host org project) = .ok (host, org, project) ∧
    get_storage_path (httpsUrl host org project ++ dotGitL)
        = .ok (host, org, project) ∧
    get_storage_path (httpsUrl host org project) = .ok (host, org, project) := by
  have storageS : ∀ u, stripDotGit u = sshUrl host org project →
      get_storage_path u = .ok (host, org, project) := by
    intro u hu
    have e1 := provider_of_ssh host org project u hu hc ha
    have e2 := org_of_ssh host org project u hu hh ho hp hc hco
    have e3 := project_of_ssh host org project u hu hh ho hp
    simp only [get_storage_path, e1, e2, e3]
  have storageH : ∀ u, stripDotGit u = httpsUrl host org project →
      get_storage_path u = .ok (host, org, project) := by
    intro u hu
    have e1 := provider_of_https host org project u hu hh
    have e2 := org_of_https host org project u hu hh ho hp hco
    have e3 := project_of_https host org project u hu hh ho hp
    simp only [get_storage_path, e1, e2, e3]
  refine ⟨storageS _ ?_, storageS _ ?_, storageH _ ?_, storageH _ ?_⟩
  · exact stripDotGit_append _
  · exact stripDotGit_sshUrl host org project hpg
  · exact stripDotGit_append _
  · exact stripDotGit_httpsUrl host org project hpg

/-- The string `"github.com"` as a character list (concrete witness data). -/
def hostW : List Char := ['g', 'i', 't', 'h', 'u', 'b', '.', 'c', 'o', 'm']

/-- The string `"envyr-lang"` as a character list (concrete witness data). -/
def orgW : List Char := ['e', 'n', 'v', 'y', 'r', '-', 'l', 'a', 'n', 'g']

/-- The string `"envyr"` as a character list (concrete witness data). -/
def projW : List Char := ['e', 'n', 'v', 'y', 'r']

/-- Witness for C1 at the repository's own test URL
`git@github.com:envyr-lang/envyr(.git)` / `https://github.com/envyr-lang/envyr(.git)`. -/
theorem claim_C1_witness :
    get_storage_path (sshUrl hostW orgW projW ++ dotGitL)
        = .ok (hostW, orgW, projW) ∧
    get_storage_path (sshUrl hostW orgW projW) = .ok (hostW, orgW, projW) ∧
    get_storage_path (httpsUrl hostW orgW projW ++ dotGitL)
        = .ok (hostW, orgW, projW) ∧
    get_storage_path (httpsUrl hostW orgW projW) = .ok (hostW, orgW, projW) :=
  claim_C1 hostW orgW projW (by decide) (by decide) (by decide) (by decide)
    (by decide) (by decide) (by decide)

/-- C6: a locator containing no `/` separator makes `get_org_name` return a
descriptive parse error (not a panic), makes cache-key derivation fail, and
makes `fetch` fail immediately with an empty subprocess trace — in
particular before any clone is invoked, whatever the oracle world, version
and refresh flag. -/
theorem claim_C6 (url : List Char) (h : '/' ∉ url) :
    get_org_name url = .error (.org (stripDotGit url)) ∧
    get_storage_path url = .error (.org (stripDotGit url)) ∧
    ∀ (w : GitWorld) (version : List Char) (refresh : Bool),
      fetch w url version refresh
        = (.error (.parse (.org (stripDotGit url))), []) := by
  have hstrip : '/' ∉ stripDotGit url := fun hm => h (mem_stripDotGit hm)
  have e0 : splitOnChar '/' (stripDotGit url) = [stripDotGit url] :=
    splitOnChar_of_not_mem _ _ hstrip
  have horg : get_org_name url = .error (.org (stripDotGit url)) := by
    simp only [get_org_name, e0, nthBack_single]
  obtain ⟨v, hprov⟩ := get_git_provider_isOk url
  have hstor : get_storage_path url = .error (.org (stripDotGit url)) := by
    simp only [get_storage_path, hprov, horg]
  refine ⟨horg, hstor, ?_⟩
  intro w version refresh
  simp only [fetch, hstor]

/-- C3: on a fetch whose target cache directory already exists, the working
tree is first restored to the default branch (symbolic HEAD, then `main`,
then `master`, fatally failing if all three fail) before any pull or tag
fetch; pull and tag-fetch are invoked iff the refresh flag is set (given
the preceding steps succeed); the requested version is checked out last
unless it is the `latest` sentinel; and no clone is ever issued. -/
theorem claim_C3 (w : GitWorld) (url version : List Char) (refresh : Bool)
    (key : List Char × List Char × List Char)
    (hp : w.pathExists = true) (hk : get_storage_path url = .ok key) :
    (∃ rest, (fetch w url version refresh).2 = (swapBackToLatest w).2 ++ rest) ∧
    GitCmd.pull ∉ (swapBackToLatest w).2 ∧
    GitCmd.fetchTags ∉ (swapBackToLatest w).2 ∧
    (swapBackToLatest w).2.head? = some GitCmd.symbolicRef ∧
    (∀ out, w.symref = some out → w.checkoutOk (branchOf out) = true →
        swapBackToLatest w = (.ok (), [.symbolicRef, .checkout (branchOf out)])) ∧
    (symrefBranchOk w = false → w.checkoutOk mainL = true →
        (swapBackToLatest w).1 = .ok () ∧
          (swapBackToLatest w).2.getLast? = some (.checkout mainL)) ∧
    (symrefBranchOk w = false → w.checkoutOk mainL = false →
        w.checkoutOk masterL = true →
        (swapBackToLatest w).1 = .ok () ∧
          (swapBackToLatest w).2.getLast? = some (.checkout masterL)) ∧
    (symrefBranchOk w = false → w.checkoutOk mainL = false →
        w.checkoutOk masterL = false →
        fetch w url version refresh = (.error .swapFailed, (swapBackToLatest w).2)) ∧
    GitCmd.clone ∉ (fetch w url version refresh).2 ∧
    ((swapBackToLatest w).1 = .ok () →
        (GitCmd.pull ∈ (fetch w url version refresh).2 ↔ refresh = true)) ∧
    ((swapBackToLatest w).1 = .ok () → w.pullOk = true →
        (GitCmd.fetchTags ∈ (fetch w url version refresh).2 ↔ refresh = true)) ∧
    ((swapBackToLatest w).1 = .ok () →
        (refresh = true → w.pullOk = true ∧ w.fetchTagsOk = true) →
        version ≠ latestL →
        (fetch w url version refresh).2
          = (swapBackToLatest w).2 ++ (if refresh then [.pull, .fetchTags] else [])
              ++ [.checkout version]) ∧
    ((swapBackToLatest w).1 = .ok () →
        (refresh = true → w.pullOk = true ∧ w.fetchTagsOk = true) →
        version = latestL →
        (fetch w url version refresh).2
          = (swapBackToLatest w).2
              ++ (if refresh then [.pull, .fetchTags] else [])) := by
  obtain ⟨cErr, cNoRef, cPullF, cTagsF, cOk⟩ :=
    fetch_cached_cases w url version refresh key hp hk
  obtain ⟨hnp, hnt, hnc⟩ := swap_trace_mem w
  have hTrace : (swapBackToLatest w).1 = .ok () →
      (fetch w url version refresh).2
        = (swapBackToLatest w).2 ++
            (if refresh then
              (if w.pullOk then
                (if w.fetchTagsOk then
                  [GitCmd.pull, GitCmd.fetchTags] ++ (checkout_version w version).2
                 else [GitCmd.pull, GitCmd.fetchTags])
               else [GitCmd.pull])
             else (checkout_version w version).2) := by
    intro hok
    cases refresh with
    | false => rw [cNoRef hok rfl]; simp
    | true =>
      cases hpull : w.pullOk with
      | false => rw [cPullF hok rfl hpull]; simp
      | true =>
        cases htags : w.fetchTagsOk with
        | false => rw [cTagsF hok rfl hpull htags]; simp
        | true => rw [cOk hok rfl hpull htags]; simp [List.append_assoc]
  refine ⟨?_, hnp, hnt, swap_trace_head w, ?_, ?_, ?_, ?_, ?_, ?_, ?_, ?_, ?_⟩
  · rcases swap_result_ok_or_swapFailed w with hok | herr
    · exact ⟨_, hTrace hok⟩
    · exact ⟨[], by rw [cErr _ herr]; simp⟩
  · intro out h1 h2
    exact swap_symref_spec w out h1 h2
  · intro h1 h2
    exact swap_main_spec w h1 h2
  · intro h1 h2 h3
    exact swap_master_spec w h1 h2 h3
  · intro h1 h2 h3
    exact cErr _ ((swap_error_iff w).mpr ⟨h1, h2, h3⟩)
  · rcases swap_result_ok_or_swapFailed w with hok | herr
    · rw [hTrace hok]
      simp only [List.mem_append, not_or]
      refine ⟨hnc, ?_⟩
      by_cases hv : version = latestL <;>
        cases refresh <;> cases hw1 : w.pullOk <;> cases hw2 : w.fetchTagsOk <;>
          simp [checkout_version_trace, hv]
    · rw [cErr _ herr]
      simpa using hnc
  · intro hok
    rw [hTrace hok]
    cases refresh with
    | true =>
      cases hw1 : w.pullOk <;> cases hw2 : w.fetchTagsOk <;>
        simp [List.mem_append]
    | false =>
      by_cases hv : version = latestL <;>
        simp [List.mem_append, hnp, checkout_version_trace, hv]
  · intro hok hpull
    rw [hTrace hok]
    cases refresh with
    | true =>
      cases hw2 : w.fetchTagsOk <;> simp [hpull, List.mem_append]
    | false =>
      by_cases hv : version = latestL <;>
        simp [List.mem_append, hnt, checkout_version_trace, hv]
  · intro hok hcond hv
    rw [hTrace hok]
    cases refresh with
    | true =>
      obtain ⟨h1, h2⟩ := hcond rfl
      simp [h1, h2, checkout_version_trace, hv, List.append_assoc]
    | false =>
      simp [checkout_version_trace, hv]
  · intro hok hcond hv
    subst hv
    rw [hTrace hok]
    cases refresh with
    | true =>
      obtain ⟨h1, h2⟩ := hcond rfl
      simp [h1, h2, checkout_version_trace]
    | false => simp [checkout_version_trace]

/-- The string `"no-slash-here"` as a character list (concrete witness data, the
repository's own negative test input). -/
def noSlashW : List Char :=
  ['n', 'o', '-', 's', 'l', 'a', 's', 'h', '-', 'h', 'e', 'r', 'e']

/-- An all-succeeding oracle world (concrete witness data). -/
def worldW : GitWorld :=
  ⟨true, none, fun _ => true, true, true, true⟩

/-- The string `"git@gh:o/p"` as a character list (concrete witness data). -/
def urlW : List Char := ['g', 'i', 't', '@', 'g', 'h', ':', 'o', '/', 'p']

/-- The cache key of `urlW` (concrete witness data). -/
def keyW : List Char × List Char × List Char := (['g', 'h'], ['o'], ['p'])

/-- The string `"v1"` as a character list (concrete witness data). -/
def vW : List Char := ['v', '1']

/-- Witness for C3: a refreshing fetch of version `v1` from an existing
cache entry in an all-succeeding world. -/
theorem claim_C3_witness :
    (∃ rest, (fetch worldW urlW vW true).2 = (swapBackToLatest worldW).2 ++ rest) ∧
    GitCmd.pull ∉ (swapBackToLatest worldW).2 ∧
    GitCmd.fetchTags ∉ (swapBackToLatest worldW).2 ∧
    (swapBackToLatest worldW).2.head? = some GitCmd.symbolicRef ∧
    (∀ out, worldW.symref = some out → worldW.checkoutOk (branchOf out) = true →
        swapBackToLatest worldW
          = (.ok (), [.symbolicRef, .checkout (branchOf out)])) ∧
    (symrefBranchOk worldW = false → worldW.checkoutOk mainL = true →
        (swapBackToLatest worldW).1 = .ok () ∧
          (swapBackToLatest worldW).2.getLast? = some (.checkout mainL)) ∧
    (symrefBranchOk worldW = false → worldW.checkoutOk mainL = false →
        worldW.checkoutOk masterL = true →
        (swapBackToLatest worldW).1 = .ok () ∧
          (swapBackToLatest worldW).2.getLast? = some (.checkout masterL)) ∧
    (symrefBranchOk worldW = false → worldW.checkoutOk mainL = false →
        worldW.checkoutOk masterL = false →
        fetch worldW urlW vW true
          = (.error .swapFailed, (swapBackToLatest worldW).2)) ∧
    GitCmd.clone ∉ (fetch worldW urlW vW true).2 ∧
    ((swapBackToLatest worldW).1 = .ok () →
        (GitCmd.pull ∈ (fetch worldW urlW vW true).2 ↔ true = true)) ∧
    ((swapBackToLatest worldW).1 = .ok () → worldW.pullOk = true →
        (GitCmd.fetchTags ∈ (fetch worldW urlW vW true).2 ↔ true = true)) ∧
    ((swapBackToLatest worldW).1 = .ok () →
        (true = true → worldW.pullOk = true ∧ worldW.fetchTagsOk = true) →
        vW ≠ latestL →
        (fetch worldW urlW vW true).2
          = (swapBackToLatest worldW).2
              ++ (if true then [.pull, .fetchTags] else []) ++ [.checkout vW]) ∧
    ((swapBackToLatest worldW).1 = .ok () →
        (true = true → worldW.pullOk = true ∧ worldW.fetchTagsOk = true) →
        vW = latestL →
        (fetch worldW urlW vW true).2
          = (swapBackToLatest worldW).2
              ++ (if true then [.pull, .fetchTags] else [])) :=
  claim_C3 worldW urlW vW true keyW rfl rfl

/-- Witness for C6 at the repository's own test input `no-slash-here`. -/
theorem claim_C6_witness :
    get_org_name noSlashW = .error (.org (stripDotGit noSlashW)) ∧
    get_storage_path noSlashW = .error (.org (stripDotGit noSlashW)) ∧
    fetch worldW noSlashW latestL false
      = (.error (.parse (.org (stripDotGit noSlashW))), []) :=
  ⟨(claim_C6 noSlashW (by decide)).1, (claim_C6 noSlashW (by decide)).2.1,
   (claim_C6 noSlashW (by decide)).2.2 worldW latestL false⟩

/-! ## The project analyzer (package.rs, utils.rs)

Filesystem reads, JSON parsing outcomes and the external
dependency-detection collaborator are supplied by an oracle `ProjWorld`;
file contents are carried by `SrcFile` records. -/

/-- Embedding of `PType` (package.rs). -/
inductive PType where
  | Python
  | Node
  | Shell
  | Other
deriving Repr, DecidableEq

/-- Embedding of `PRIORITY_TOP` (utils.rs). -/
def PRIORITY_TOP : Nat := 0

/-- Embedding of `PRIORITY_LIKELY` (utils.rs). -/
def PRIORITY_LIKELY : Nat := 1

/-- Embedding of `PRIORITY_UNLIKELY` (utils.rs). -/
def PRIORITY_UNLIKELY : Nat := 2

/-- Embedding of `PRIORITY_LAST` (utils.rs). -/
def PRIORITY_LAST : Nat := 3

/-- A JSON value, as far as `detect_main_node` observes it: a string, an
object, or anything else (numbers, booleans, arrays, null are all opaque
to `as_str` and key indexing). -/
inductive JVal where
  | str (s : List Char)
  | obj (fields : List (List Char × JVal))
  | other
deriving Repr

/-- serde_json `Value` indexing `v[key]`: the key's value in an object,
`Null`-like `other` when absent or when `v` is not an object. -/
def jget (v : JVal) (k : List Char) : JVal :=
  match v with
  | .obj fs =>
    match fs.find? (fun f => decide (f.1 = k)) with
    | some f => f.2
    | none => .other
  | _ => .other

/-- serde_json `Value::as_str`. -/
def asStr : JVal → Option (List Char)
  | .str s => some s
  | _ => none

/-- Oracle for the analyzer's filesystem and subprocess interactions. -/
structure ProjWorld where
  /-- whether `<root>/package.json` exists. -/
  packageJsonExists : Bool
  /-- the parse of `package.json`: `none` when unreadable or invalid JSON. -/
  packageJsonVal : Option JVal
  /-- whether `<root>/requirements.txt` exists. -/
  requirementsTxtExists : Bool
  /-- stdout-parse of the `detect-pkgs` collaborator per script path;
  `none` = any failure of that subprocess or of parsing its output. -/
  bashDeps : List Char → Option (List (List Char))

/-- Embedding of `check_package_json` (utils.rs). -/
def check_package_json (w : ProjWorld) : Bool := w.packageJsonExists

/-- Embedding of `check_requirements_txt` (utils.rs). -/
def check_requirements_txt (w : ProjWorld) : Bool := w.requirementsTxtExists

/-- The string `"main"` as a character list. -/
def mainKeyL : List Char := ['m', 'a', 'i', 'n']

/-- Embedding of `detect_main_node` (utils.rs lines 77-94). -/
def detect_main_node (w : ProjWorld) : Option (List Char) :=
  if check_package_json w = false then none
  else
    match w.packageJsonVal with
    | none => none
    | some v => asStr (jget v mainKeyL)

/-- Embedding of `check_bash_dependencies` (utils.rs lines 101-112). -/
def check_bash_dependencies (w : ProjWorld) (script : List Char) :
    Except Unit (List (List Char)) :=
  match w.bashDeps script with
  | some deps => .ok deps
  | none => .error ()

/-- A regular file visited by the walker: its path and its contents
(`none` = unreadable / not valid UTF-8). -/
structure SrcFile where
  path : List Char
  content : Option (List Char)

/-- The double-quote character. -/
def dqChar : Char := Char.ofNat 34

/-- The single-quote character. -/
def sqChar : Char := Char.ofNat 39

/-- The string `"if __name__ == "` as a character list. -/
def guardPre : List Char :=
  ['i', 'f', ' ', '_', '_', 'n', 'a', 'm', 'e', '_', '_', ' ', '=', '=', ' ']

/-- The string `"__main__"` as a character list. -/
def mainUnder : List Char := ['_', '_', 'm', 'a', 'i', 'n', '_', '_']

/-- The double-quoted python main guard. -/
def guardDq : List Char := guardPre ++ dqChar :: (mainUnder ++ [dqChar, ':'])

/-- The single-quoted python main guard. -/
def guardSq : List Char := guardPre ++ sqChar :: (mainUnder ++ [sqChar, ':'])

/-- Embedding of `check_python_main` (utils.rs lines 19-25); the Rust
function wraps the boolean in an infallible `Ok`. -/
def check_python_main (code : List Char) : Bool :=
  containsL guardDq code || containsL guardSq code

/-- Embedding of `check_python_exec_priority` (utils.rs lines 27-34); the
error case is a failed `read_to_string`. -/
def check_python_exec_priority (f : SrcFile) : Except Unit Nat :=
  match f.content with
  | none => .error ()
  | some code =>
    if check_python_main code then .ok PRIORITY_TOP else .ok PRIORITY_UNLIKELY

/-- The string `"#!"` as a character list. -/
def shebangL : List Char := ['#', '!']

/-- The first line of a file, as collected by `read_until(b'\n')` (the
trailing newline is irrelevant because the caller trims). -/
def firstLine (c : List Char) : List Char :=
  c.takeWhile (fun ch => ¬ (ch = '\n'))

/-- Embedding of `check_shebang_file` (utils.rs lines 37-49). -/
def check_shebang_file (f : SrcFile) : Except Unit (Option (List Char)) :=
  match f.content with
  | none => .error ()
  | some c =>
    let line := trimL (firstLine c)
    if startsWithL shebangL line then
      .ok (some ((stripPrefixL shebangL line).getD []))
    else .ok none

/-- Embedding of `map_extension_to_ptype` (utils.rs lines 51-59). -/
def map_extension_to_ptype (ext : List Char) : Option PType :=
  if ext = ['p', 'y'] then some .Python
  else if ext = ['s', 'h'] then some .Shell
  else if ext = ['j', 's'] then some .Node
  else if ext = ['t', 's'] then some .Node
  else none

/-- The string `"py"` as a character list. -/
def pyExtL : List Char := ['p', 'y']

/-- The string `"/usr/bin/env python"` as a character list. -/
def pythonInterpL : List Char :=
  ['/', 'u', 's', 'r', '/', 'b', 'i', 'n', '/', 'e', 'n', 'v', ' ',
   'p', 'y', 't', 'h', 'o', 'n']

/-- The string `"/usr/bin/env node"` as a character list. -/
def nodeInterpL : List Char :=
  ['/', 'u', 's', 'r', '/', 'b', 'i', 'n', '/', 'e', 'n', 'v', ' ',
   'n', 'o', 'd', 'e']

/-- The string `"/bin/sh"` as a character list. -/
def shInterpL : List Char := ['/', 'b', 'i', 'n', '/', 's', 'h']

/-- The string `"bash"` as a character list. -/
def bashL : List Char := ['b', 'a', 's', 'h']

/-- Embedding of `Path::file_name`: the last `/`-separated component. -/
def fileNameOf (path : List Char) : List Char :=
  match splitOnChar '/' path with
  | [] => []
  | a :: r => lastD r a

/-- Embedding of `Path::extension`: the part of the file name after the final `.`;
none when there is no `.`, or when the name starts with `.` and has no
other `.`. -/
def extensionOf (path : List Char) : Option (List Char) :=
  let ps := splitOnChar '.' (fileNameOf path)
  if ps.length ≤ 1 then none
  else if ps.head? = some [] ∧ ps.length = 2 then none
  else ps.getLast?

/-- An entrypoint candidate `(path, interpreter, priority)` collected by
the walker. -/
structure ExecEntry where
  path : List Char
  interp : List Char
  priority : Nat
deriving Repr, DecidableEq

/-- Embedding of `detect_possible_entrypoint` (package.rs lines 264-301). -/
def detect_possible_entrypoint (f : SrcFile) : Option ExecEntry :=
  let ext := (extensionOf f.path).getD []
  if ext = pyExtL then
    let priority :=
      match check_python_exec_priority f with
      | .ok p => p
      | .error _ => PRIORITY_LAST
    some ⟨f.path, pythonInterpL, priority⟩
  else
    match check_shebang_file f with
    | .ok (some interpreter) => some ⟨f.path, trimL interpreter, PRIORITY_LIKELY⟩
    | _ => none

/-- Embedding of `detect_ptype_from_extension` (package.rs lines 259-262). -/
def detect_ptype_from_extension (f : SrcFile) : Option PType :=
  match extensionOf f.path with
  | none => none
  | some ext => map_extension_to_ptype ext

/-- Embedding of `detect_ptype` (package.rs lines 198-208). -/
def detect_ptype (w : ProjWorld) : Option PType :=
  if check_package_json w then some .Node
  else if check_requirements_txt w then some .Python
  else none

/-- The project-type component of `analyse_project` (package.rs lines
210-257): marker files first, then the walk updates the type from file
extensions only while it is still `Other`. -/
def walkPtypeStep (pt : PType) (f : SrcFile) : PType :=
  if pt = PType.Other then
    match detect_ptype_from_extension f with
    | some pt2 => pt2
    | none => pt
  else pt

/-- See `walkPtypeStep`: the walk over the file list threads the builder's
project type through `walkPtypeStep`, starting from the marker-file result
(or the `Other` default). -/
def analyse_ptype (w : ProjWorld) (files : List SrcFile) : PType :=
  let init :=
    match detect_ptype w with
    | some pt => pt
    | none => PType.Other
  files.foldl walkPtypeStep init

/-- Embedding of `Pack` (package.rs). -/
structure Pack where
  name : List Char
  interpreter : List Char
  ptype : PType
  deps : List (List Char)
  entrypoint : List Char
deriving Repr, DecidableEq

/-- Embedding of `PackBuilder` (package.rs). -/
structure PackBuilder where
  project_root : List Char
  name : Option (List Char)
  interpreter : Option (List Char)
  entrypoint : Option (List Char)
  executables : List ExecEntry
  ptype : PType

/-- Embedding of `deduce_entrypoint` (package.rs lines 182-187). -/
def deduce_entrypoint (ptype : PType) (w : ProjWorld) : Option (List Char) :=
  match ptype with
  | .Node => detect_main_node w
  | _ => none

/-- Embedding of `deduce_interpreter` (package.rs lines 189-196). -/
def deduce_interpreter (ptype : PType) : Option (List Char) :=
  match ptype with
  | .Python => some pythonInterpL
  | .Node => some nodeInterpL
  | .Shell => some shInterpL
  | .Other => none

/-- Insert an entry after every entry of lower-or-equal... strictly lower
priority comes first; entries of equal priority keep their original order.
Together with `sortExec` this embeds the stable ascending
`sort_by(|a, b| a.2.cmp(&b.2))` of `PackBuilder::build`. -/
def insertE (x : ExecEntry) : List ExecEntry → List ExecEntry
  | [] => [x]
  | y :: ys =>
    if y.priority < x.priority then y :: insertE x ys
    else x :: y :: ys

/-- Stable ascending sort by priority (see `insertE`). -/
def sortExec (l : List ExecEntry) : List ExecEntry :=
  l.foldr insertE []

/-- The error cases of `PackBuilder::build` (package.rs lines 81-158);
`panicIndex` stands for the out-of-bounds indexing panic, which the
surrounding checks make unreachable. -/
inductive BuildErr where
  | noName
  | noEntrypoint
  | ambiguous (execs : List ExecEntry)
  | noInterpreter
  | panicIndex
deriving Repr, DecidableEq

/-- The entrypoint-resolution block of `PackBuilder::build` (package.rs
lines 88-122). -/
def resolveEntry (w : ProjWorld) (b : PackBuilder) : Except BuildErr PackBuilder :=
  if b.entrypoint.isNone then
    if b.executables.isEmpty then
      match deduce_entrypoint b.ptype w with
      | some e => .ok { b with entrypoint := some e }
      | none => .error .noEntrypoint
    else if 1 < b.executables.length then
      match sortExec b.executables with
      | e0 :: e1 :: rest =>
        if e0.priority = e1.priority then .error (.ambiguous (e0 :: e1 :: rest))
        else .ok { b with entrypoint := some e0.path, interpreter := some e0.interp }
      | _ => .error .panicIndex
    else
      match b.executables with
      | e :: _ => .ok { b with entrypoint := some e.path, interpreter := some e.interp }
      | [] => .error .panicIndex
  else .ok b

/-- The interpreter-resolution block of `PackBuilder::build` (package.rs
lines 123-136). -/
def resolveInterp (b : PackBuilder) : Except BuildErr PackBuilder :=
  if b.interpreter.isNone then
    match deduce_interpreter b.ptype with
    | some i => .ok { b with interpreter := some i }
    | none => .error .noInterpreter
  else .ok b

/-- Embedding of `PathBuf::join` for a relative right-hand side. -/
def joinPath (root rel : List Char) : List Char := root ++ '/' :: rel

/-- The OS-dependency block of `PackBuilder::build` (package.rs lines
138-149): only attempted when the interpreter mentions `bash`, and any
collaborator failure degrades to the empty list. -/
def buildDeps (w : ProjWorld) (b : PackBuilder) : List (List Char) :=
  match b.interpreter, b.entrypoint with
  | some interp, some entryp =>
    if containsL bashL interp then
      match check_bash_dependencies w (joinPath b.project_root entryp) with
      | .ok d => d
      | .error _ => []
    else []
  | _, _ => []

/-- Embedding of `PackBuilder::build` (package.rs lines 81-158). -/
def build (w : ProjWorld) (b : PackBuilder) : Except BuildErr Pack :=
  if b.name.isNone then .error .noName
  else
    match resolveEntry w b with
    | .error e => .error e
    | .ok b1 =>
      match resolveInterp b1 with
      | .error e => .error e
      | .ok b2 =>
        .ok { name := b2.name.getD [], interpreter := b2.interpreter.getD [],
              entrypoint := b2.entrypoint.getD [], ptype := b2.ptype,
              deps := buildDeps w b2 }

/-! Lemmas about the analyzer embedding. -/

theorem insertE_perm (x : ExecEntry) (l : List ExecEntry) :
    List.Perm (insertE x l) (x :: l) := by
  induction l with
  | nil => exact List.Perm.refl _
  | cons y ys ih =>
    simp only [insertE]
    split
    · exact (ih.cons y).trans (List.Perm.swap x y ys)
    · exact List.Perm.refl _

theorem sortExec_perm (l : List ExecEntry) : List.Perm (sortExec l) l := by
  induction l with
  | nil => exact List.Perm.refl _
  | cons x xs ih =>
    have h1 : sortExec (x :: xs) = insertE x (sortExec xs) := rfl
    rw [h1]
    exact (insertE_perm x (sortExec xs)).trans (ih.cons x)

theorem mem_insertE {e x : ExecEntry} {l : List ExecEntry} :
    e ∈ insertE x l ↔ e = x ∨ e ∈ l := by
  rw [(insertE_perm x l).mem_iff, List.mem_cons]

theorem insertE_sorted (x : ExecEntry) (l : List ExecEntry)
    (h : l.Pairwise (fun a b => a.priority ≤ b.priority)) :
    (insertE x l).Pairwise (fun a b => a.priority ≤ b.priority) := by
  induction l with
  | nil => simp [insertE]
  | cons y ys ih =>
    rcases List.pairwise_cons.mp h with ⟨hy, hys⟩
    simp only [insertE]
    split
    · rename_i hlt
      refine List.pairwise_cons.mpr ⟨?_, ih hys⟩
      intro e he
      rcases mem_insertE.mp he with rfl | he2
      · exact Nat.le_of_lt hlt
      · exact hy e he2
    · rename_i hnlt
      have hxy : x.priority ≤ y.priority := Nat.le_of_not_lt hnlt
      refine List.pairwise_cons.mpr ⟨?_, h⟩
      intro e he
      rcases List.mem_cons.mp he with rfl | he2
      · exact hxy
      · exact hxy.trans (hy e he2)

theorem sortExec_sorted (l : List ExecEntry) :
    (sortExec l).Pairwise (fun a b => a.priority ≤ b.priority) := by
  induction l with
  | nil => simp [sortExec]
  | cons x xs ih => exact insertE_sorted x (sortExec xs) ih

theorem resolveEntry_multi (w : ProjWorld) (b : PackBuilder)
    (e0 e1 : ExecEntry) (rest : List ExecEntry)
    (hentry : b.entrypoint = none)
    (hsort : sortExec b.executables = e0 :: e1 :: rest) :
    resolveEntry w b
      = if e0.priority = e1.priority then .error (.ambiguous (e0 :: e1 :: rest))
        else .ok { b with entrypoint := some e0.path,
                          interpreter := some e0.interp } := by
  have hlen : b.executables.length = rest.length + 2 := by
    have h1 := (sortExec_perm b.executables).length_eq
    rw [hsort] at h1
    simpa using h1.symm
  have hne : b.executables.isEmpty = false := by
    cases hbe : b.executables with
    | nil => rw [hbe] at hlen; simp at hlen
    | cons _ _ => rfl
  have hgt : 1 < b.executables.length := by omega
  simp [resolveEntry, hentry, hne, hgt, hsort]

theorem resolveEntry_single (w : ProjWorld) (b : PackBuilder) (e : ExecEntry)
    (hentry : b.entrypoint = none) (hexec : b.executables = [e]) :
    resolveEntry w b
      = .ok { b with entrypoint := some e.path, interpreter := some e.interp } := by
  simp [resolveEntry, hentry, hexec]

theorem resolveEntry_zero (w : ProjWorld) (b : PackBuilder)
    (hentry : b.entrypoint = none) (hexec : b.executables = []) :
    resolveEntry w b
      = match deduce_entrypoint b.ptype w with
        | some e => .ok { b with entrypoint := some e }
        | none => .error .noEntrypoint := by
  simp [resolveEntry, hentry, hexec]

theorem build_of_resolved (w : ProjWorld) (b b1 b2 : PackBuilder) (n : List Char)
    (hname : b.name = some n)
    (h1 : resolveEntry w b = .ok b1) (h2 : resolveInterp b1 = .ok b2) :
    build w b
      = .ok { name := b2.name.getD [], interpreter := b2.interpreter.getD [],
              entrypoint := b2.entrypoint.getD [], ptype := b2.ptype,
              deps := buildDeps w b2 } := by
  simp [build, hname, h1, h2]

theorem build_of_entry_err (w : ProjWorld) (b : PackBuilder) (n : List Char)
    (e : BuildErr) (hname : b.name = some n)
    (h1 : resolveEntry w b = .error e) : build w b = .error e := by
  simp [build, hname, h1]

theorem map_ext_ne_Other {e : List Char} {pt : PType}
    (h : map_extension_to_ptype e = some pt) : pt ≠ PType.Other := by
  intro heq
  subst heq
  unfold map_extension_to_ptype at h
  repeat' split at h
  all_goals simp at h

theorem detect_ext_ne_Other {f : SrcFile} {pt : PType}
    (h : detect_ptype_from_extension f = some pt) : pt ≠ PType.Other := by
  unfold detect_ptype_from_extension at h
  split at h
  · exact absurd h (by simp)
  · exact map_ext_ne_Other h

theorem foldl_walkPtypeStep_stable (files : List SrcFile) (pt : PType)
    (h : pt ≠ PType.Other) : files.foldl walkPtypeStep pt = pt := by
  induction files with
  | nil => rfl
  | cons f fs ih =>
    have hstep : walkPtypeStep pt f = pt := by simp [walkPtypeStep, h]
    simp [List.foldl_cons, hstep, ih]

/-! ## Claim theorems for the analyzer -/

/-- C2: with no entrypoint override and more than one collected candidate,
the builder sorts the candidates ascending by priority (stably); when the
two lowest priorities tie it fails with an ambiguous-entrypoint error whose
payload lists all candidates (a permutation of the collected list) and
never silently picks one; otherwise it adopts the path and interpreter of
the unique lowest-priority candidate. -/
theorem claim_C2 (w : ProjWorld) (b : PackBuilder) (n : List Char)
    (e0 e1 : ExecEntry) (rest : List ExecEntry)
    (hname : b.name = some n) (hentry : b.entrypoint = none)
    (hsort : sortExec b.executables = e0 :: e1 :: rest) :
    List.Perm (e0 :: e1 :: rest) b.executables ∧
    (e0 :: e1 :: rest).Pairwise (fun a b => a.priority ≤ b.priority) ∧
    (e0.priority = e1.priority →
        build w b = .error (.ambiguous (e0 :: e1 :: rest))) ∧
    (¬ (e0.priority = e1.priority) →
        (∀ e ∈ b.executables, e0.priority ≤ e.priority) ∧
        (∀ e ∈ b.executables, e.priority = e0.priority → e = e0) ∧
        ∃ p, build w b = .ok p ∧ p.entrypoint = e0.path ∧
          p.interpreter = e0.interp) := by
  have hperm : List.Perm (e0 :: e1 :: rest) b.executables := by
    rw [← hsort]; exact sortExec_perm b.executables
  have hsorted := sortExec_sorted b.executables
  rw [hsort] at hsorted
  rcases List.pairwise_cons.mp hsorted with ⟨h0, hsorted1⟩
  rcases List.pairwise_cons.mp hsorted1 with ⟨h1all, _⟩
  have hre := resolveEntry_multi w b e0 e1 rest hentry hsort
  refine ⟨hperm, hsorted, ?_, ?_⟩
  · intro heq
    rw [if_pos heq] at hre
    exact build_of_entry_err w b n _ hname hre
  · intro hne
    rw [if_neg hne] at hre
    have hlt : e0.priority < e1.priority := by
      have := h0 e1 (List.mem_cons_self _ _)
      omega
    have hmem : ∀ e ∈ b.executables, e ∈ e0 :: e1 :: rest := fun e he =>
      hperm.mem_iff.mpr he
    have hmin : ∀ e ∈ b.executables, e0.priority ≤ e.priority := by
      intro e he
      rcases List.mem_cons.mp (hmem e he) with rfl | h2
      · exact Nat.le_refl _
      · exact h0 e h2
    have huniq : ∀ e ∈ b.executables, e.priority = e0.priority → e = e0 := by
      intro e he hp
      rcases List.mem_cons.mp (hmem e he) with rfl | h2
      · rfl
      · exfalso
        rcases List.mem_cons.mp h2 with rfl | h3
        · omega
        · have := h1all e h3
          omega
    have h2 : resolveInterp
        { b with entrypoint := some e0.path, interpreter := some e0.interp }
        = .ok { b with entrypoint := some e0.path,
                       interpreter := some e0.interp } := by
      simp [resolveInterp]
    exact ⟨hmin, huniq, _, build_of_resolved w b _ _ n hname hre h2,
      by simp, by simp⟩

/-- An oracle world with no marker files and an always-failing
dependency-detection collaborator (concrete witness data). -/
def worldPW : ProjWorld := ⟨false, none, false, fun _ => none⟩

/-- Two equal-priority python candidates (concrete witness data). -/
def bTwoW : PackBuilder :=
  ⟨['r'], some ['n'], none, none,
   [⟨['a'], pythonInterpL, 0⟩, ⟨['b'], pythonInterpL, 0⟩], PType.Python⟩

/-- Witness for C2: two `__main__`-guarded candidates (both priority
`top`) make the build fail with an ambiguous-entrypoint error naming
both. -/
theorem claim_C2_witness :
    List.Perm
      [(⟨['a'], pythonInterpL, 0⟩ : ExecEntry), ⟨['b'], pythonInterpL, 0⟩]
      bTwoW.executables ∧
    ([(⟨['a'], pythonInterpL, 0⟩ : ExecEntry),
      ⟨['b'], pythonInterpL, 0⟩]).Pairwise
        (fun a b => a.priority ≤ b.priority) ∧
    ((⟨['a'], pythonInterpL, 0⟩ : ExecEntry).priority
        = (⟨['b'], pythonInterpL, 0⟩ : ExecEntry).priority →
      build worldPW bTwoW
        = .error (.ambiguous
            [⟨['a'], pythonInterpL, 0⟩, ⟨['b'], pythonInterpL, 0⟩])) ∧
    (¬ ((⟨['a'], pythonInterpL, 0⟩ : ExecEntry).priority
        = (⟨['b'], pythonInterpL, 0⟩ : ExecEntry).priority) →
      (∀ e ∈ bTwoW.executables,
          (⟨['a'], pythonInterpL, 0⟩ : ExecEntry).priority ≤ e.priority) ∧
      (∀ e ∈ bTwoW.executables,
          e.priority = (⟨['a'], pythonInterpL, 0⟩ : ExecEntry).priority →
          e = ⟨['a'], pythonInterpL, 0⟩) ∧
      ∃ p, build worldPW bTwoW = .ok p ∧ p.entrypoint = ['a'] ∧
        p.interpreter = pythonInterpL) :=
  claim_C2 worldPW bTwoW ['n'] ⟨['a'], pythonInterpL, 0⟩
    ⟨['b'], pythonInterpL, 0⟩ [] rfl rfl rfl

/-- C8: a `.py` file whose contents are readable becomes a candidate with
the Python interpreter, at priority `top` exactly when the contents contain
a `__main__` guard (double- or single-quoted), and priority `unlikely`
otherwise; a builder whose only candidate is such a top-priority file
resolves it as the entrypoint with the Python interpreter. -/
theorem claim_C8 (f : SrcFile) (code : List Char)
    (hext : (extensionOf f.path).getD [] = pyExtL)
    (hcode : f.content = some code) :
    (check_python_main code = true ↔
        (containsL guardDq code = true ∨ containsL guardSq code = true)) ∧
    detect_possible_entrypoint f
      = some ⟨f.path, pythonInterpL,
          if check_python_main code then PRIORITY_TOP else PRIORITY_UNLIKELY⟩ ∧
    (∀ (w : ProjWorld) (b : PackBuilder) (n : List Char),
        b.name = some n → b.entrypoint = none →
        b.executables = [⟨f.path, pythonInterpL, PRIORITY_TOP⟩] →
        ∃ p, build w b = .ok p ∧ p.entrypoint = f.path ∧
          p.interpreter = pythonInterpL) := by
  refine ⟨by simp [check_python_main], ?_, ?_⟩
  · by_cases hm : check_python_main code = true <;>
      simp [detect_possible_entrypoint, hext, check_python_exec_priority,
        hcode, hm]
  · intro w b n hname hentry hexec
    have h1 := resolveEntry_single w b _ hentry hexec
    have h2 : resolveInterp
        { b with entrypoint := some f.path, interpreter := some pythonInterpL }
        = .ok { b with entrypoint := some f.path,
                       interpreter := some pythonInterpL } := by
      simp [resolveInterp]
    exact ⟨_, build_of_resolved w b _ _ n hname h1 h2, by simp, by simp⟩

/-- A `__main__`-guarded python source file (concrete witness data). -/
def fPyW : SrcFile := ⟨['m', '.', 'p', 'y'], some guardDq⟩

/-- A builder that collected exactly `fPyW` (concrete witness data). -/
def bPyW : PackBuilder :=
  ⟨['r'], some ['n'], none, none,
   [⟨['m', '.', 'p', 'y'], pythonInterpL, PRIORITY_TOP⟩], PType.Python⟩

/-- Witness for C8 on a one-file project whose file is the guard itself. -/
theorem claim_C8_witness :
    (check_python_main guardDq = true ↔
        (containsL guardDq guardDq = true ∨ containsL guardSq guardDq = true)) ∧
    detect_possible_entrypoint fPyW
      = some ⟨['m', '.', 'p', 'y'], pythonInterpL,
          if check_python_main guardDq then PRIORITY_TOP
          else PRIORITY_UNLIKELY⟩ ∧
    (∀ (w : ProjWorld) (b : PackBuilder) (n : List Char),
        b.name = some n → b.entrypoint = none →
        b.executables = [⟨['m', '.', 'p', 'y'], pythonInterpL, PRIORITY_TOP⟩] →
        ∃ p, build w b = .ok p ∧ p.entrypoint = ['m', '.', 'p', 'y'] ∧
          p.interpreter = pythonInterpL) :=
  claim_C8 fPyW guardDq (by decide) rfl

theorem dropWhile_append_of_neg (p : Char → Bool) (A : List Char) (b : Char)
    (B : List Char) (hb : p b = false) :
    (A ++ b :: B).dropWhile p = A.dropWhile p ++ b :: B := by
  induction A with
  | nil => simp [List.dropWhile_cons, hb]
  | cons a t ih =>
    by_cases hpa : p a = true
    · simp [List.dropWhile_cons, hpa, ih]
    · simp [List.dropWhile_cons, hpa]

theorem trimL_shebang (r : List Char) :
    trimL (shebangL ++ r)
      = shebangL ++ (r.reverse.dropWhile Char.isWhitespace).reverse := by
  have h1 : (shebangL ++ r).dropWhile Char.isWhitespace = shebangL ++ r := by
    simp [shebangL, List.dropWhile_cons]
  have h2 : (shebangL ++ r).reverse = r.reverse ++ '!' :: ['#'] := by
    simp [shebangL]
  have h3 : (r.reverse ++ '!' :: ['#']).dropWhile Char.isWhitespace
      = r.reverse.dropWhile Char.isWhitespace ++ '!' :: ['#'] :=
    dropWhile_append_of_neg _ _ _ _ (by decide)
  rw [trimL, h1, h2, h3]
  simp [shebangL]

/-- C7: a non-`.py` file whose first line starts with `#!` is recorded as a
candidate at priority `likely` with the shebang interpreter (stripped of
`#!`, trimmed of surrounding whitespace); a builder whose only candidate
carries such an interpreter string resolves it verbatim, even under the
`Shell` project type whose default mapping is `/bin/sh`. -/
theorem claim_C7 (f : SrcFile) (code : List Char)
    (hext : ¬ ((extensionOf f.path).getD [] = pyExtL))
    (hcode : f.content = some code)
    (hshebang : startsWithL shebangL (firstLine code) = true) :
    detect_possible_entrypoint f
      = some ⟨f.path,
          trimL ((stripPrefixL shebangL (trimL (firstLine code))).getD []),
          PRIORITY_LIKELY⟩ ∧
    (∀ (w : ProjWorld) (b : PackBuilder) (n interp : List Char),
        b.name = some n → b.entrypoint = none →
        b.executables = [⟨f.path, interp, PRIORITY_LIKELY⟩] →
        b.ptype = PType.Shell →
        ∃ p, build w b = .ok p ∧ p.interpreter = interp ∧
          p.entrypoint = f.path) := by
  obtain ⟨r, hr⟩ : ∃ r, firstLine code = shebangL ++ r := by
    rw [startsWithL] at hshebang
    cases hsp : stripPrefixL shebangL (firstLine code) with
    | none => rw [hsp] at hshebang; simp at hshebang
    | some r => exact ⟨r, stripPrefixL_eq_some_iff.mp hsp⟩
  have htrim := trimL_shebang r
  have hstrip : stripPrefixL shebangL (trimL (firstLine code))
      = some (r.reverse.dropWhile Char.isWhitespace).reverse := by
    rw [hr, htrim]
    exact stripPrefixL_eq_some_iff.mpr rfl
  have hstarts : startsWithL shebangL (trimL (firstLine code)) = true := by
    rw [startsWithL, hstrip]; rfl
  have hcs : check_shebang_file f
      = .ok (some (r.reverse.dropWhile Char.isWhitespace).reverse) := by
    simp only [check_shebang_file, hcode, hstarts, if_pos rfl, hstrip]
    rfl
  refine ⟨?_, ?_⟩
  · simp only [detect_possible_entrypoint, hext, if_neg hext, hcs, hstrip]
    rfl
  · intro w b n interp hname hentry hexec hptype
    have h1 := resolveEntry_single w b _ hentry hexec
    have h2 : resolveInterp
        { b with entrypoint := some f.path, interpreter := some interp }
        = .ok { b with entrypoint := some f.path,
                       interpreter := some interp } := by
      simp [resolveInterp]
    exact ⟨_, build_of_resolved w b _ _ n hname h1 h2, by simp, by simp⟩

/-- A shebang-only shell script (concrete witness data): its first line is
`#!/bin/bash ` with a trailing blank. -/
def fShW : SrcFile :=
  ⟨['s', '.', 's', 'h'],
   some (['#', '!', '/', 'b', 'i', 'n', '/', 'b', 'a', 's', 'h', ' ', '\n',
          'e', 'c', 'h', 'o'])⟩

/-- The contents of `fShW` (concrete witness data). -/
def fShCodeW : List Char :=
  ['#', '!', '/', 'b', 'i', 'n', '/', 'b', 'a', 's', 'h', ' ', '\n',
   'e', 'c', 'h', 'o']

/-- Witness for C7 on a single shebang-only shell script. -/
theorem claim_C7_witness :
    detect_possible_entrypoint fShW
      = some ⟨['s', '.', 's', 'h'],
          trimL ((stripPrefixL shebangL (trimL (firstLine fShCodeW))).getD []),
          PRIORITY_LIKELY⟩ ∧
    (∀ (w : ProjWorld) (b : PackBuilder) (n interp : List Char),
        b.name = some n → b.entrypoint = none →
        b.executables = [⟨['s', '.', 's', 'h'], interp, PRIORITY_LIKELY⟩] →
        b.ptype = PType.Shell →
        ∃ p, build w b = .ok p ∧ p.interpreter = interp ∧
          p.entrypoint = ['s', '.', 's', 'h']) :=
  claim_C7 fShW fShCodeW (by decide) rfl (by decide)

/-- C5: with no entrypoint override and zero collected candidates, the
builder attempts a type-specific fallback implemented only for Node
(reading `package.json`'s `main` field); a successful fallback resolves
that path as the entrypoint with the Node interpreter, without the file
appearing in the candidate list; and with no fallback available the build
fails with a fatal error. -/
theorem claim_C5 :
    (∀ (pt : PType) (w : ProjWorld), pt ≠ PType.Node →
        deduce_entrypoint pt w = none) ∧
    (∀ (w : ProjWorld) (v : JVal) (m : List Char),
        w.packageJsonExists = true → w.packageJsonVal = some v →
        jget v mainKeyL = JVal.str m → detect_main_node w = some m) ∧
    (∀ (w : ProjWorld) (b : PackBuilder) (n m : List Char),
        b.name = some n → b.entrypoint = none → b.executables = [] →
        b.ptype = PType.Node → b.interpreter = none →
        detect_main_node w = some m →
        ∃ p, build w b = .ok p ∧ p.entrypoint = m ∧
          p.interpreter = nodeInterpL) ∧
    (∀ (w : ProjWorld) (b : PackBuilder) (n : List Char),
        b.name = some n → b.entrypoint = none → b.executables = [] →
        deduce_entrypoint b.ptype w = none →
        build w b = .error .noEntrypoint) := by
  refine ⟨?_, ?_, ?_, ?_⟩
  · intro pt w h
    cases pt with
    | Node => exact absurd rfl h
    | Python => rfl
    | Shell => rfl
    | Other => rfl
  · intro w v m h1 h2 h3
    simp [detect_main_node, check_package_json, h1, h2, h3, asStr]
  · intro w b n m hname hentry hexec hptype hinterp hmain
    have hded : deduce_entrypoint b.ptype w = some m := by
      rw [hptype]
      simpa [deduce_entrypoint] using hmain
    have h1 : resolveEntry w b = .ok { b with entrypoint := some m } := by
      rw [resolveEntry_zero w b hentry hexec, hded]
    have h2 : resolveInterp { b with entrypoint := some m }
        = .ok { b with entrypoint := some m,
                       interpreter := some nodeInterpL } := by
      simp [resolveInterp, hinterp, deduce_interpreter, hptype]
    exact ⟨_, build_of_resolved w b _ _ n hname h1 h2, by simp, by simp⟩
  · intro w b n hname hentry hexec hded
    have h1 : resolveEntry w b = .error .noEntrypoint := by
      rw [resolveEntry_zero w b hentry hexec, hded]
    exact build_of_entry_err w b n _ hname h1

/-- The string `"index.js"` as a character list (concrete witness data). -/
def ixL : List Char := ['i', 'n', 'd', 'e', 'x', '.', 'j', 's']

/-- A world whose `package.json` parses to `{"main": "index.js"}`
(concrete witness data). -/
def worldNW : ProjWorld :=
  ⟨true, some (JVal.obj [(mainKeyL, JVal.str ixL)]), false, fun _ => none⟩

/-- A candidate-free Node builder (concrete witness data). -/
def bZeroW : PackBuilder := ⟨['r'], some ['n'], none, none, [], PType.Node⟩

/-- A candidate-free `Other` builder (concrete witness data). -/
def bZeroOtherW : PackBuilder := ⟨['r'], some ['n'], none, none, [], PType.Other⟩

/-- Witness for C5 on `{"main": "index.js"}` and on a fallback-less
project. -/
theorem claim_C5_witness :
    deduce_entrypoint PType.Python worldPW = none ∧
    detect_main_node worldNW = some ixL ∧
    (∃ p, build worldNW bZeroW = .ok p ∧ p.entrypoint = ixL ∧
        p.interpreter = nodeInterpL) ∧
    build worldPW bZeroOtherW = .error .noEntrypoint :=
  ⟨claim_C5.1 PType.Python worldPW (by decide),
   claim_C5.2.1 worldNW (JVal.obj [(mainKeyL, JVal.str ixL)]) ixL rfl rfl rfl,
   claim_C5.2.2.1 worldNW bZeroW ['n'] ixL rfl rfl rfl rfl rfl rfl,
   claim_C5.2.2.2 worldPW bZeroOtherW ['n'] rfl rfl rfl rfl⟩

/-- C9: OS-level dependency detection is attempted only when the resolved
interpreter mentions `bash`; any collaborator failure degrades the
dependency list to the empty list; and whenever name, entrypoint and
interpreter resolution succeed, the build succeeds regardless of the
dependency-detection outcome. -/
theorem claim_C9 (w : ProjWorld) (b : PackBuilder) (n : List Char)
    (b1 b2 : PackBuilder) (hname : b.name = some n)
    (h1 : resolveEntry w b = .ok b1) (h2 : resolveInterp b1 = .ok b2) :
    (∃ p, build w b = .ok p) ∧
    (∀ interp entryp, b2.interpreter = some interp →
        b2.entrypoint = some entryp →
        ∃ p, build w b = .ok p ∧
          (containsL bashL interp = false → p.deps = []) ∧
          (w.bashDeps (joinPath b2.project_root entryp) = none →
              p.deps = []) ∧
          (∀ d, containsL bashL interp = true →
              w.bashDeps (joinPath b2.project_root entryp) = some d →
              p.deps = d)) := by
  have hb := build_of_resolved w b b1 b2 n hname h1 h2
  refine ⟨⟨_, hb⟩, ?_⟩
  intro interp entryp hi he
  refine ⟨_, hb, ?_, ?_, ?_⟩
  · intro hnb
    simp [buildDeps, hi, he, hnb]
  · intro hfail
    by_cases hc : containsL bashL interp = true <;>
      simp [buildDeps, hi, he, hc, check_bash_dependencies, hfail]
  · intro d hc hd
    simp [buildDeps, hi, he, hc, check_bash_dependencies, hd]

/-- The string `"/bin/bash"` as a character list (concrete witness data). -/
def bashInterpW : List Char := ['/', 'b', 'i', 'n', '/', 'b', 'a', 's', 'h']

/-- A builder that collected one bash script (concrete witness data). -/
def bShellW : PackBuilder :=
  ⟨['r'], some ['n'], none, none, [⟨['s'], bashInterpW, 1⟩], PType.Shell⟩

/-- The builder state after entrypoint resolution of `bShellW`
(concrete witness data). -/
def bShellW1 : PackBuilder :=
  ⟨['r'], some ['n'], some bashInterpW, some ['s'],
   [⟨['s'], bashInterpW, 1⟩], PType.Shell⟩

/-- Witness for C9: a bash project in a world whose dependency-detection
collaborator always fails still builds, with empty dependencies. -/
theorem claim_C9_witness :
    (∃ p, build worldPW bShellW = .ok p) ∧
    (∀ interp entryp, bShellW1.interpreter = some interp →
        bShellW1.entrypoint = some entryp →
        ∃ p, build worldPW bShellW = .ok p ∧
          (containsL bashL interp = false → p.deps = []) ∧
          (worldPW.bashDeps (joinPath bShellW1.project_root entryp) = none →
              p.deps = []) ∧
          (∀ d, containsL bashL interp = true →
              worldPW.bashDeps (joinPath bShellW1.project_root entryp) = some d →
              p.deps = d)) :=
  claim_C9 worldPW bShellW ['n'] bShellW1 bShellW1 rfl rfl rfl

/-- C10: marker-file project-type detection prefers `package.json` (Node)
over `requirements.txt` (Python); `requirements.txt` yields Python only
when `package.json` is absent; with both markers absent the type is left
to extension-based detection during the walk, defaulting to `Other`. -/
theorem claim_C10 :
    (∀ (w : ProjWorld) (files : List SrcFile), w.packageJsonExists = true →
        detect_ptype w = some PType.Node ∧
          analyse_ptype w files = PType.Node) ∧
    (∀ (w : ProjWorld) (files : List SrcFile), w.packageJsonExists = false →
        w.requirementsTxtExists = true →
        detect_ptype w = some PType.Python ∧
          analyse_ptype w files = PType.Python) ∧
    (∀ (w : ProjWorld), w.packageJsonExists = false →
        w.requirementsTxtExists = false →
        detect_ptype w = none ∧ analyse_ptype w [] = PType.Other) ∧
    (∀ (w : ProjWorld) (f : SrcFile) (fs : List SrcFile) (pt : PType),
        w.packageJsonExists = false → w.requirementsTxtExists = false →
        detect_ptype_from_extension f = some pt →
        analyse_ptype w (f :: fs) = pt) := by
  refine ⟨?_, ?_, ?_, ?_⟩
  · intro w files h
    have hd : detect_ptype w = some PType.Node := by
      simp [detect_ptype, check_package_json, h]
    refine ⟨hd, ?_⟩
    simp only [analyse_ptype, hd]
    exact foldl_walkPtypeStep_stable files _ (by decide)
  · intro w files h1 h2
    have hd : detect_ptype w = some PType.Python := by
      simp [detect_ptype, check_package_json, check_requirements_txt, h1, h2]
    refine ⟨hd, ?_⟩
    simp only [analyse_ptype, hd]
    exact foldl_walkPtypeStep_stable files _ (by decide)
  · intro w h1 h2
    have hd : detect_ptype w = none := by
      simp [detect_ptype, check_package_json, check_requirements_txt, h1, h2]
    exact ⟨hd, by simp [analyse_ptype, hd]⟩
  · intro w f fs pt h1 h2 hf
    have hd : detect_ptype w = none := by
      simp [detect_ptype, check_package_json, check_requirements_txt, h1, h2]
    have hstep : walkPtypeStep PType.Other f = pt := by
      simp [walkPtypeStep, hf]
    simp only [analyse_ptype, hd, List.foldl_cons, hstep]
    exact foldl_walkPtypeStep_stable fs pt (detect_ext_ne_Other hf)

/-- A world with both marker files present (concrete witness data). -/
def worldBothW : ProjWorld := ⟨true, none, true, fun _ => none⟩

/-- A world with only `requirements.txt` (concrete witness data). -/
def worldReqW : ProjWorld := ⟨false, none, true, fun _ => none⟩

/-- A plain shell file for extension detection (concrete witness data). -/
def fShExtW : SrcFile := ⟨['x', '.', 's', 'h'], some ['h', 'i']⟩

/-- Witness for C10: both markers present yields Node even over a `.sh`
walk; requirements-only yields Python; no markers defaults to `Other` and
defers to extension detection. -/
theorem claim_C10_witness :
    (detect_ptype worldBothW = some PType.Node ∧
        analyse_ptype worldBothW [fShExtW] = PType.Node) ∧
    (detect_ptype worldReqW = some PType.Python ∧
        analyse_ptype worldReqW [fShExtW] = PType.Python) ∧
    (detect_ptype worldPW = none ∧ analyse_ptype worldPW [] = PType.Other) ∧
    analyse_ptype worldPW [fShExtW] = PType.Shell :=
  ⟨claim_C10.1 worldBothW [fShExtW] rfl,
   claim_C10.2.1 worldReqW [fShExtW] rfl rfl,
   claim_C10.2.2.1 worldPW rfl rfl,
   claim_C10.2.2.2 worldPW fShExtW [] PType.Shell rfl rfl rfl⟩

/-- The classification result of the URL classifier. -/
inductive FetcherKind where
  | vcs
  | localPath
deriving Repr, DecidableEq

/-- The string `"git@"` as a character list. -/
def gitAtL : List Char := ['g', 'i', 't', '@']

/-- The string `"git://"` as a character list. -/
def gitProtoL : List Char := ['g', 'i', 't', ':', '/', '/']

/-- Modelled from the spec: the live URL classifier
`src/envyr/adapters/fetcher.rs::get_fetcher` is missing from the source
tree (only its caller `main.rs` and the superseded historical `envy/`
snapshot are present); spec section 4.1: return the VCS fetcher iff the
locator begins with a recognized VCS scheme prefix (`git@`, `git://`, or
an `http(s)://` URL), else the local-path fetcher; pure, total, no error
case. -/
def get_fetcher (url : List Char) : FetcherKind :=
  if startsWithL gitAtL url then .vcs
  else if startsWithL gitProtoL url then .vcs
  else if startsWithL httpsL url then .vcs
  else if startsWithL httpL url then .vcs
  else .localPath

/-- C4: the URL classifier is total with no error case, selects VCS
handling exactly when the locator begins with a recognized VCS scheme
prefix (`git@`, `git://`, `https://` or `http://`), and classifies every
other string as a local path. -/
theorem claim_C4 (url : List Char) :
    (get_fetcher url = .vcs ∨ get_fetcher url = .localPath) ∧
    (get_fetcher url = .vcs ↔
        (startsWithL gitAtL url = true ∨ startsWithL gitProtoL url = true ∨
         startsWithL httpsL url = true ∨ startsWithL httpL url = true)) ∧
    (get_fetcher url = .localPath ↔
        (startsWithL gitAtL url = false ∧ startsWithL gitProtoL url = false ∧
         startsWithL httpsL url = false ∧ startsWithL httpL url = false)) := by
  refine ⟨?_, ?_, ?_⟩ <;>
    unfold get_fetcher <;>
    rcases h1 : startsWithL gitAtL url <;>
    rcases h2 : startsWithL gitProtoL url <;>
    rcases h3 : startsWithL httpsL url <;>
    rcases h4 : startsWithL httpL url <;>
    simp

/-- Witness for C4 at the repository's SSH-style test locator. -/
theorem claim_C4_witness :
    (get_fetcher urlW = .vcs ∨ get_fetcher urlW = .localPath) ∧
    (get_fetcher urlW = .vcs ↔
        (startsWithL gitAtL urlW = true ∨ startsWithL gitProtoL urlW = true ∨
         startsWithL httpsL urlW = true ∨ startsWithL httpL urlW = true)) ∧
    (get_fetcher urlW = .localPath ↔
        (startsWithL gitAtL urlW = false ∧ startsWithL gitProtoL urlW = false ∧
         startsWithL httpsL urlW = false ∧ startsWithL httpL urlW = false)) :=
  claim_C4 urlW

end Envyr
